import Mathlib

/-!
Verification development for the phishing-watchdog repository.
The definitions below are a shallow embedding of the core detection and
scoring pipeline of src/scripts/update.py: keyword matching, the
brand-similarity scorer, the classifier, the threat scorer, and the
ingestion loop of main. External collaborators (DNS lookups, the clock)
are modelled as function parameters; the Levenshtein backend is modelled
by a reference edit-distance implementation. Rationals stand in for
Python floats, and Int for Python int.
-/

/-- Substring test helper: does the second list start with the first one. -/
def startsWithL : List Char → List Char → Bool
  | [], _ => true
  | _ :: _, [] => false
  | a :: as, b :: bs => a == b && startsWithL as bs

/-- Substring scan over all suffixes of the haystack. -/
def substrAux (needle : List Char) : List Char → Bool
  | [] => startsWithL needle []
  | c :: rest => startsWithL needle (c :: rest) || substrAux needle rest

/-- Model of the Python expression needle in hay for strings. -/
def strContains (hay needle : String) : Bool :=
  substrAux needle.data hay.data

/-- Model of the Python expression str.split on a single dot separator. -/
def splitDot (l : List Char) : List (List Char) :=
  l.foldr
    (fun c acc =>
      if c == '.' then [] :: acc
      else
        match acc with
        | h :: t => (c :: h) :: t
        | [] => [[c]])
    [[]]

/-- Modelled from the spec: the external edit-distance primitive imported in
update.py (from Levenshtein import distance). Standard unit-cost edit
distance computed row by row. -/
def levRowAux (x : Char) : List (Char × Nat × Nat) → Nat → List Nat
  | [], _ => []
  | (y, diag, up) :: rest, left =>
    let c := min (min (left + 1) (up + 1)) (diag + (if x == y then 0 else 1))
    c :: levRowAux x rest c

/-- Pair each character of the second string with two adjacent entries of the
previous dynamic-programming row. -/
def zipShift : List Char → List Nat → List (Char × Nat × Nat)
  | y :: ys, d :: u :: ps => (y, d, u) :: zipShift ys (u :: ps)
  | _, _ => []

/-- One dynamic-programming step of the edit-distance computation. -/
def levStep (ys : List Char) (row : List Nat) (x : Char) : List Nat :=
  let h := row.headD 0 + 1
  h :: levRowAux x (zipShift ys row) h

/-- Modelled from the spec: unit-cost Levenshtein edit distance, the external
similarity backend of update.py. -/
def levenshtein_distance (s t : String) : Nat :=
  let ys := t.data
  let finalRow := s.data.foldl (levStep ys) (List.range (ys.length + 1))
  finalRow.getLastD 0

/-- KEYWORDS list of update.py, in source order. -/
def KEYWORDS : List String :=
  ["login", "signin", "sign-in", "logon", "log-on", "authenticate",
   "verification", "verify", "confirm", "validate",
   "secure", "security", "protected", "safety", "safe",
   "ssl", "https", "encryption",
   "bank", "banking", "payment", "wallet", "crypto", "bitcoin", "ethereum",
   "finance", "transfer", "wire", "invoice", "billing", "account",
   "support", "helpdesk", "service", "customer", "help", "assistance",
   "recovery", "restore", "unlock", "suspended", "disabled",
   "urgent", "alert", "warning", "notice", "update", "action", "required",
   "immediately", "expire", "expired", "limited",
   "password", "passwd", "credential", "reset", "recover",
   "otp", "token", "2fa", "mfa",
   "webmail", "mailbox", "outlook", "office365", "microsoft365",
   "icloud", "appleid", "google-", "facebook-", "instagram-"]

/-- BRANDS list of update.py, in source order. -/
def BRANDS : List String :=
  ["paypal", "amazon", "apple", "google", "microsoft", "facebook",
   "instagram", "twitter", "netflix", "spotify", "dropbox", "linkedin",
   "chase", "wellsfargo", "bankofamerica", "citibank", "usbank",
   "coinbase", "binance", "kraken", "metamask", "opensea",
   "outlook", "office365", "onedrive", "sharepoint", "teams",
   "icloud", "appstore", "itunes", "imessage",
   "whatsapp", "telegram", "signal", "discord", "slack",
   "adobe", "zoom", "webex", "docusign", "salesforce",
   "fedex", "ups", "usps", "dhl",
   "att", "verizon", "tmobile", "comcast", "xfinity"]

/-- BRAND_SIMILARITY_THRESHOLD of update.py. -/
def BRAND_SIMILARITY_THRESHOLD : ℚ := 8 / 10

/-- get_domain_base of update.py: split on dots and take the second-to-last
label when there are at least two labels, otherwise the whole string. -/
def get_domain_base (domain : String) : String :=
  let parts := splitDot domain.data
  if 2 ≤ parts.length then String.mk (parts.getD (parts.length - 2) [])
  else domain

/-- Normalized similarity of a base label against one brand, as computed in
calculate_brand_similarity: one minus the edit distance divided by the
longer length. -/
def simOf (base brand : String) : ℚ :=
  1 - (levenshtein_distance base brand : ℚ) / ((max base.length brand.length : ℕ) : ℚ)

/-- Loop body of calculate_brand_similarity of update.py: containment
short-circuits with similarity one; a pair of empty strings is skipped;
otherwise the best strictly-improving similarity is tracked. -/
def brandLoop (base : String) : List String → Option String × ℚ → Option String × ℚ
  | [], acc => acc
  | brand :: rest, acc =>
    if strContains base brand then (some brand, 1)
    else if max base.length brand.length = 0 then brandLoop base rest acc
    else if acc.2 < simOf base brand then brandLoop base rest (some brand, simOf base brand)
    else brandLoop base rest acc

/-- calculate_brand_similarity of update.py generalized over the brand
lexicon; hasLev models the HAS_LEVENSHTEIN import guard. -/
def calcBrandSim (hasLev : Bool) (brands : List String) (domain : String) :
    Option String × ℚ :=
  if hasLev then brandLoop (get_domain_base domain) brands (none, 0)
  else (none, 0)

/-- calculate_brand_similarity of update.py, over the BRANDS lexicon. -/
def calculate_brand_similarity (hasLev : Bool) (domain : String) :
    Option String × ℚ :=
  calcBrandSim hasLev BRANDS domain

/-- Python truthiness of an optional string: None and the empty string are
falsy. -/
def pyTruthy : Option String → Bool
  | none => false
  | some s => !(s == "")

/-- Model of the Python builtin round to two decimal places, using
round-half-to-even on the exact rational value. -/
def round2 (q : ℚ) : ℚ :=
  let n : ℤ := Rat.floor (q * 100)
  let r : ℚ := q * 100 - (n : ℚ)
  if r < 1 / 2 then (n : ℚ) / 100
  else if 1 / 2 < r then ((n + 1 : ℤ) : ℚ) / 100
  else (if n % 2 = 0 then (n : ℚ) else ((n + 1 : ℤ) : ℚ)) / 100

/-- Verdict dictionary returned by is_suspicious: either the clean record with
no evidence fields, or the flagged record with its three evidence fields. -/
inductive Verdict
  | clean
  | flagged (keywords : List String) (brand_match : Option String)
      (brand_similarity : Option ℚ)
deriving DecidableEq

/-- is_suspicious of update.py: keyword scan over the full domain, brand
similarity with the 0.8 threshold, sub-threshold matches discarded. -/
def is_suspicious (hasLev : Bool) (domain : String) : Verdict :=
  let matched := KEYWORDS.filter (fun k => strContains domain k)
  let r := calculate_brand_similarity hasLev domain
  let brand_alert := pyTruthy r.1 && decide (BRAND_SIMILARITY_THRESHOLD ≤ r.2)
  if !matched.isEmpty || brand_alert then
    Verdict.flagged matched (if brand_alert then r.1 else none)
      (if brand_alert then some (round2 r.2) else none)
  else Verdict.clean

/-- DomainRecord dictionary built by main in update.py. -/
structure DomainRecord where
  domain : String
  mx : Bool
  has_ip : Bool
  keywords : List String
  brand_match : Option String
  brand_similarity : Option ℚ
  date : String
  threat_score : ℤ
  threat_level : String
deriving DecidableEq

/-- high_risk list of calculate_threat_score in update.py. -/
def high_risk : List String :=
  ["login", "password", "passwd", "bank", "crypto", "wallet", "verify", "secure"]

/-- calculate_threat_score of update.py: 25 for MX, a floored 35-weighted
brand term for positive similarity, 5 per keyword capped at 25, a 15 bonus
for a high-risk keyword, capped at 100. -/
def calculate_threat_score (entry : DomainRecord) : ℤ :=
  let score : ℤ := 0
  let score := if entry.mx then score + 25 else score
  let similarity : ℚ :=
    match entry.brand_similarity with
    | none => 0
    | some q => if q = 0 then 0 else q
  let score := if 0 < similarity then score + Rat.floor (similarity * 35) else score
  let keyword_score : ℤ := min ((entry.keywords.length : ℤ) * 5) 25
  let score := score + keyword_score
  let score :=
    if entry.keywords.any (fun k => decide (k ∈ high_risk)) then score + 15 else score
  min score 100

/-- get_threat_level of update.py. -/
def get_threat_level (score : ℤ) : String :=
  if 75 ≤ score then "CRITICAL"
  else if 50 ≤ score then "HIGH"
  else if 25 ≤ score then "MEDIUM"
  else "LOW"

/-- Model of the Python slice l[-n:]. -/
def takeLast {α : Type} (n : Nat) (l : List α) : List α :=
  l.drop (l.length - n)

/-- Body of the per-candidate part of main in update.py: skip domains found in
the pre-loop snapshot of existing domains, classify the rest, and build the
scored record for suspicious ones. The DNS oracles and the clock are the
function parameters mxF, aF and dateF. -/
def processNew (hasLev : Bool) (mxF aF : String → Bool) (dateF : String → String)
    (seen : List String) (d : String) : Option DomainRecord :=
  if d ∈ seen then none
  else
    match is_suspicious hasLev d with
    | Verdict.clean => none
    | Verdict.flagged kws bm bs =>
      let e0 : DomainRecord :=
        { domain := d, mx := mxF d, has_ip := aF d, keywords := kws,
          brand_match := bm, brand_similarity := bs, date := dateF d,
          threat_score := 0, threat_level := "" }
      some { e0 with
              threat_score := calculate_threat_score e0,
              threat_level := get_threat_level (calculate_threat_score e0) }

/-- One iteration of the candidate loop of main: append the new record and
bump added_count, or keep the accumulator unchanged. -/
def ingestStep (hasLev : Bool) (mxF aF : String → Bool) (dateF : String → String)
    (seen : List String) (acc : List DomainRecord × Nat) (d : String) :
    List DomainRecord × Nat :=
  match processNew hasLev mxF aF dateF seen d with
  | none => acc
  | some e => (acc.1 ++ [e], acc.2 + 1)

/-- Ingestion core of main in update.py: snapshot the existing domains, fold
the candidate loop over the candidate list, then keep the latest 1000
records. Returns the saved history together with added_count. -/
def main_ingest (hasLev : Bool) (mxF aF : String → Bool) (dateF : String → String)
    (existing : List DomainRecord) (cands : List String) :
    List DomainRecord × Nat :=
  let seen := existing.map (fun e => e.domain)
  let r := cands.foldl (ingestStep hasLev mxF aF dateF seen) (existing, 0)
  (takeLast 1000 r.1, r.2)

/-- Records appended by one ingestion run, in candidate order. -/
def newRecords (hasLev : Bool) (mxF aF : String → Bool) (dateF : String → String)
    (existing : List DomainRecord) (cands : List String) : List DomainRecord :=
  cands.filterMap (processNew hasLev mxF aF dateF (existing.map (fun e => e.domain)))

/-- Running maximum of the similarities of the valid brands, mirroring the
accumulation of best_score in calculate_brand_similarity. -/
def runMax (base : String) (start : ℚ) : List String → ℚ
  | [] => start
  | b :: bs =>
    if max base.length b.length = 0 then runMax base start bs
    else runMax base (max start (simOf base b)) bs

/-- Validity of a brand comparison: at least one of the two strings is
non-empty, so the normalized similarity is defined. -/
def simValid (base b : String) : Bool :=
  !(decide (max base.length b.length = 0))

/-- The accumulator similarity never decreases along runMax. -/
lemma runMax_le (base : String) :
    ∀ (bs : List String) (s : ℚ), s ≤ runMax base s bs := by
  intro bs
  induction bs with
  | nil => intro s; simp [runMax]
  | cons b rest ih =>
    intro s
    simp only [runMax]
    split
    · exact ih s
    · exact le_trans (le_max_left s _) (ih _)

/-- Containment short-circuit: if some brand of the list is contained in the
base label, the loop returns the first such brand with similarity one, for
every accumulator. -/
lemma brandLoop_find_contains (base : String) :
    ∀ (bs : List String) (b0 : String) (acc : Option String × ℚ),
      bs.find? (fun b => strContains base b) = some b0 →
      brandLoop base bs acc = (some b0, 1) := by
  intro bs
  induction bs with
  | nil => intro b0 acc h; simp [List.find?] at h
  | cons b rest ih =>
    intro b0 acc h
    by_cases hc : strContains base b = true
    · rw [List.find?_cons_of_pos rest hc] at h
      injection h with h
      subst h
      simp [brandLoop, hc]
    · have hc' : strContains base b = false := by simpa using hc
      rw [List.find?_cons_of_neg rest (by simp [hc'])] at h
      have hstep : brandLoop base (b :: rest) acc
          = if max base.length b.length = 0 then brandLoop base rest acc
            else if acc.2 < simOf base b then brandLoop base rest (some b, simOf base b)
            else brandLoop base rest acc := by
        simp [brandLoop, hc']
      rw [hstep]
      split
      · exact ih b0 _ h
      · split
        · exact ih b0 _ h
        · exact ih b0 _ h

/-- If the loop returns no brand it returns its accumulator unchanged. -/
lemma brandLoop_spec (base : String) :
    ∀ (bs : List String) (acc : Option String × ℚ),
      (∀ b ∈ bs, strContains base b = false) →
      (brandLoop base bs acc).2 = runMax base acc.2 bs
      ∧ ((brandLoop base bs acc).2 ≤ acc.2 → brandLoop base bs acc = acc)
      ∧ (acc.2 < (brandLoop base bs acc).2 →
          ∃ b0, bs.find? (fun b => simValid base b
              && decide (simOf base b = (brandLoop base bs acc).2)) = some b0
            ∧ (brandLoop base bs acc).1 = some b0) := by
  intro bs
  induction bs with
  | nil =>
    intro acc _
    refine ⟨rfl, fun _ => rfl, fun habs => absurd habs (lt_irrefl _)⟩
  | cons b rest ih =>
    intro acc hnc
    have hcb : strContains base b = false := hnc b (by simp)
    have hrest : ∀ x ∈ rest, strContains base x = false := fun x hx => hnc x (by simp [hx])
    by_cases hv : max base.length b.length = 0
    · have hBL : brandLoop base (b :: rest) acc = brandLoop base rest acc := by
        simp [brandLoop, hcb, hv]
      have hRM : runMax base acc.2 (b :: rest) = runMax base acc.2 rest := by
        simp [runMax, hv]
      have hF : simValid base b = false := by simp [simValid, hv]
      obtain ⟨ih1, ih2, ih3⟩ := ih acc hrest
      refine ⟨by rw [hBL, hRM]; exact ih1, by rw [hBL]; exact ih2, ?_⟩
      intro hlt
      rw [hBL] at hlt
      obtain ⟨b0, h1, h2⟩ := ih3 hlt
      rw [hBL]
      exact ⟨b0, by rw [List.find?_cons_of_neg rest (by simp [hF])]; exact h1, h2⟩
    · by_cases himp : acc.2 < simOf base b
      · have hBL : brandLoop base (b :: rest) acc
            = brandLoop base rest (some b, simOf base b) := by
          simp [brandLoop, hcb, hv, himp]
        have hmax : max acc.2 (simOf base b) = simOf base b := max_eq_right (le_of_lt himp)
        have hRM : runMax base acc.2 (b :: rest) = runMax base (simOf base b) rest := by
          simp [runMax, hv, hmax]
        obtain ⟨ih1, ih2, ih3⟩ := ih (some b, simOf base b) hrest
        have hge : simOf base b ≤ (brandLoop base rest (some b, simOf base b)).2 := by
          rw [ih1]; exact runMax_le base rest _
        refine ⟨by rw [hBL, hRM]; exact ih1, ?_, ?_⟩
        · intro hle
          rw [hBL] at hle
          exact absurd (lt_of_lt_of_le himp (le_trans hge hle)) (lt_irrefl _)
        · intro _
          rw [hBL]
          rcases le_or_lt (brandLoop base rest (some b, simOf base b)).2 (simOf base b)
            with hle | hlt2
          · have hreq := ih2 hle
            have hpb : (simValid base b
                && decide (simOf base b = (brandLoop base rest (some b, simOf base b)).2))
                = true := by
              rw [hreq]
              simp [simValid, hv]
            exact ⟨b, List.find?_cons_of_pos rest hpb, by rw [hreq]⟩
          · obtain ⟨b0, h1, h2⟩ := ih3 hlt2
            have hpb : ¬ (simValid base b
                && decide (simOf base b = (brandLoop base rest (some b, simOf base b)).2))
                = true := by
              simp [simValid, hv]
              exact ne_of_lt hlt2
            exact ⟨b0, by rw [List.find?_cons_of_neg rest (by simpa using hpb)]; exact h1, h2⟩
      · have hle' : simOf base b ≤ acc.2 := not_lt.mp himp
        have hBL : brandLoop base (b :: rest) acc = brandLoop base rest acc := by
          simp [brandLoop, hcb, hv, himp]
        have hmax : max acc.2 (simOf base b) = acc.2 := max_eq_left hle'
        have hRM : runMax base acc.2 (b :: rest) = runMax base acc.2 rest := by
          simp [runMax, hv, hmax]
        obtain ⟨ih1, ih2, ih3⟩ := ih acc hrest
        refine ⟨by rw [hBL, hRM]; exact ih1, by rw [hBL]; exact ih2, ?_⟩
        intro hlt
        rw [hBL] at hlt
        obtain ⟨b0, h1, h2⟩ := ih3 hlt
        rw [hBL]
        have hpb : ¬ (simValid base b
            && decide (simOf base b = (brandLoop base rest acc).2)) = true := by
          simp [simValid, hv]
          exact ne_of_lt (lt_of_le_of_lt hle' hlt)
        exact ⟨b0, by rw [List.find?_cons_of_neg rest (by simpa using hpb)]; exact h1, h2⟩

/-- A brand returned by the loop comes from the brand list or from the
accumulator. -/
lemma brandLoop_mem (base : String) :
    ∀ (bs : List String) (acc : Option String × ℚ) (b : String),
      (brandLoop base bs acc).1 = some b → b ∈ bs ∨ acc.1 = some b := by
  intro bs
  induction bs with
  | nil => intro acc b h; exact Or.inr h
  | cons x rest ih =>
    intro acc b h
    by_cases hc : strContains base x = true
    · have hx : brandLoop base (x :: rest) acc = (some x, 1) := by simp [brandLoop, hc]
      rw [hx] at h
      injection h with h
      exact Or.inl (h ▸ List.mem_cons_self x rest)
    · have hc' : strContains base x = false := by simpa using hc
      have hstep : brandLoop base (x :: rest) acc
          = if max base.length x.length = 0 then brandLoop base rest acc
            else if acc.2 < simOf base x then brandLoop base rest (some x, simOf base x)
            else brandLoop base rest acc := by
        simp [brandLoop, hc']
      rw [hstep] at h
      split at h
      · rcases ih acc b h with h1 | h1
        · exact Or.inl (List.mem_cons_of_mem _ h1)
        · exact Or.inr h1
      · split at h
        · rcases ih (some x, simOf base x) b h with h1 | h1
          · exact Or.inl (List.mem_cons_of_mem _ h1)
          · exact Or.inl (by injection h1 with h1; exact h1 ▸ List.mem_cons_self x rest)
        · rcases ih acc b h with h1 | h1
          · exact Or.inl (List.mem_cons_of_mem _ h1)
          · exact Or.inr h1

/-- If the loop returns no brand, it returns the accumulator unchanged. -/
lemma brandLoop_none (base : String) :
    ∀ (bs : List String) (acc : Option String × ℚ),
      (brandLoop base bs acc).1 = none → brandLoop base bs acc = acc := by
  intro bs
  induction bs with
  | nil => intro acc _; rfl
  | cons x rest ih =>
    intro acc h
    by_cases hc : strContains base x = true
    · have hx : brandLoop base (x :: rest) acc = (some x, 1) := by simp [brandLoop, hc]
      rw [hx] at h
      cases h
    · have hc' : strContains base x = false := by simpa using hc
      have hstep : brandLoop base (x :: rest) acc
          = if max base.length x.length = 0 then brandLoop base rest acc
            else if acc.2 < simOf base x then brandLoop base rest (some x, simOf base x)
            else brandLoop base rest acc := by
        simp [brandLoop, hc']
      by_cases hv : max base.length x.length = 0
      · rw [hstep, if_pos hv] at h ⊢
        exact ih acc h
      · by_cases himp : acc.2 < simOf base x
        · rw [hstep, if_neg hv, if_pos himp] at h ⊢
          have hx := ih _ h
          rw [hx] at h
          exact absurd h (by simp)
        · rw [hstep, if_neg hv, if_neg himp] at h ⊢
          exact ih acc h

/-- C3 (amended): when some brand of the lexicon occurs as a substring of the
base label of the domain, calculate_brand_similarity short-circuits and
returns similarity exactly one together with the FIRST such brand in lexicon
order, regardless of the edit-distance proximity of any other brand, assuming
the similarity backend is available. -/
theorem brand_containment_first_match (d b0 : String)
    (h : BRANDS.find? (fun b => strContains (get_domain_base d) b) = some b0) :
    calculate_brand_similarity true d = (some b0, 1) := by
  have hcalc : calculate_brand_similarity true d
      = brandLoop (get_domain_base d) BRANDS (none, 0) := rfl
  rw [hcalc]
  exact brandLoop_find_contains (get_domain_base d) BRANDS b0 (none, 0) h

/-- Witness for brand_containment_first_match at a concrete domain. -/
theorem brand_containment_first_match_witness :
    BRANDS.find? (fun b => strContains (get_domain_base "secure-paypal-login.com") b)
      = some "paypal"
    ∧ calculate_brand_similarity true "secure-paypal-login.com" = (some "paypal", 1) :=
  ⟨by with_unfolding_all decide,
   brand_containment_first_match "secure-paypal-login.com" "paypal"
     (by with_unfolding_all decide)⟩

/-- Counterexample to C3 as stated: the base label of amazonpaypal.com
contains the brand amazon, yet the scorer does not return amazon; the earlier
lexicon entry paypal wins, so the returned brand does depend on lexicon
position when several brands are contained. -/
theorem brand_containment_counterexample :
    strContains (get_domain_base "amazonpaypal.com") "amazon" = true
    ∧ "amazon" ∈ BRANDS
    ∧ calculate_brand_similarity true "amazonpaypal.com" ≠ (some "amazon", 1)
    ∧ calculate_brand_similarity true "amazonpaypal.com" = (some "paypal", 1) := by
  refine ⟨by decide, by decide, by with_unfolding_all decide, by with_unfolding_all decide⟩

/-- C4 (amended): with the backend available and no brand contained in the
base label, the scorer returns as similarity the running maximum of the
defined normalized edit-distance similarities (starting from zero), and it
returns the first brand attaining that maximum provided the maximum is
positive; when no brand attains positive similarity it returns (none, 0), and
it also returns (none, 0) when the backend is unavailable or the lexicon is
empty. -/
theorem brand_similarity_argmax :
    (∀ d : String, calculate_brand_similarity false d = (none, 0))
    ∧ (∀ (hasLev : Bool) (d : String), calcBrandSim hasLev [] d = (none, 0))
    ∧ (∀ d : String,
        (∀ b ∈ BRANDS, strContains (get_domain_base d) b = false) →
        (calculate_brand_similarity true d).2 = runMax (get_domain_base d) 0 BRANDS
        ∧ ((calculate_brand_similarity true d).2 ≤ 0 →
            calculate_brand_similarity true d = (none, 0))
        ∧ (0 < (calculate_brand_similarity true d).2 →
            ∃ b0, BRANDS.find? (fun b => simValid (get_domain_base d) b
                && decide (simOf (get_domain_base d) b
                    = (calculate_brand_similarity true d).2)) = some b0
              ∧ (calculate_brand_similarity true d).1 = some b0)) := by
  refine ⟨fun d => rfl, ?_, ?_⟩
  · intro hasLev d
    cases hasLev <;> rfl
  · intro d hnc
    have hcalc : calculate_brand_similarity true d
        = brandLoop (get_domain_base d) BRANDS (none, 0) := rfl
    obtain ⟨h1, h2, h3⟩ := brandLoop_spec (get_domain_base d) BRANDS (none, 0) hnc
    rw [hcalc]
    exact ⟨h1, h2, h3⟩

set_option maxRecDepth 100000 in
/-- Witness for brand_similarity_argmax at a concrete domain with a positive
best similarity. -/
theorem brand_similarity_argmax_witness :
    (calculate_brand_similarity true "paypa.com").1 = some "paypal" := by
  obtain ⟨b0, h1, h2⟩ :=
    (brand_similarity_argmax.2.2 "paypa.com" (by with_unfolding_all decide)).2.2
      (by with_unfolding_all decide)
  have h3 : BRANDS.find? (fun b => simValid (get_domain_base "paypa.com") b
      && decide (simOf (get_domain_base "paypa.com") b
          = (calculate_brand_similarity true "paypa.com").2)) = some "paypal" := by
    with_unfolding_all decide
  rw [h1] at h3
  injection h3 with h4
  rw [h2, h4]

set_option maxRecDepth 100000 in
/-- Counterexample to C4 as stated: for q.com no brand is contained in the
base label and every similarity is zero, so the brand maximizing similarity
is the first lexicon entry paypal, yet the scorer returns no brand at all:
it yields (none, 0) rather than the maximizing brand. -/
theorem brand_similarity_argmax_counterexample :
    BRANDS.all (fun b => !(strContains (get_domain_base "q.com") b)) = true
    ∧ simOf (get_domain_base "q.com") "paypal" = 0
    ∧ BRANDS.all (fun b => decide (simOf (get_domain_base "q.com") b ≤ 0)) = true
    ∧ calculate_brand_similarity true "q.com" = (none, 0) := by
  refine ⟨by decide, by with_unfolding_all decide, by with_unfolding_all decide,
    by with_unfolding_all decide⟩

/-- Floor on rationals is monotone. -/
lemma ratFloor_mono {q r : ℚ} (h : q ≤ r) : Rat.floor q ≤ Rat.floor r :=
  Rat.le_floor.mpr (le_trans (Rat.le_floor.mp le_rfl) h)

/-- Floor on rationals is nonnegative on nonnegative input. -/
lemma ratFloor_nonneg {q : ℚ} (h : 0 ≤ q) : 0 ≤ Rat.floor q :=
  Rat.le_floor.mpr (by exact_mod_cast h)

/-- Closed-form description of calculate_threat_score: the four additive
terms in their fixed order, clamped at 100 from above. -/
lemma cts_formula (e : DomainRecord) :
    calculate_threat_score e =
      min 100 ((if e.mx then 25 else 0)
        + (match e.brand_similarity with
            | some q => if 0 < q then Rat.floor (q * 35) else 0
            | none => 0)
        + min (5 * (e.keywords.length : ℤ)) 25
        + (if ∃ k ∈ e.keywords, k ∈ high_risk then 15 else 0)) := by
  have hany : (e.keywords.any (fun k => decide (k ∈ high_risk)) = true)
      ↔ ∃ k ∈ e.keywords, k ∈ high_risk := by simp
  rcases hbs : e.brand_similarity with _ | q
  · by_cases hk : ∃ k ∈ e.keywords, k ∈ high_risk <;> by_cases hm : e.mx <;>
      · simp [calculate_threat_score, hbs, hm, hk, hany]
        omega
  · rcases lt_trichotomy q 0 with hq | hq | hq
    · by_cases hk : ∃ k ∈ e.keywords, k ∈ high_risk <;> by_cases hm : e.mx <;>
        · simp [calculate_threat_score, hbs, hm, hk, hany, hq.ne,
            not_lt.mpr hq.le]
          omega
    · subst hq
      by_cases hk : ∃ k ∈ e.keywords, k ∈ high_risk <;> by_cases hm : e.mx <;>
        · simp [calculate_threat_score, hbs, hm, hk, hany]
          omega
    · by_cases hk : ∃ k ∈ e.keywords, k ∈ high_risk <;> by_cases hm : e.mx <;>
        · simp [calculate_threat_score, hbs, hm, hk, hany, hq, hq.ne.symm]
          omega

/-- C1: calculate_threat_score equals the clamped sum of the four terms of
the spec, applied in the fixed order: 25 for MX, the floored 35-weighted
brand term for positive similarity, five per keyword capped at 25, and the
15 high-risk bonus, with the final sum clamped to the interval from 0 to
100 (the lower clamp is vacuous since every term is nonnegative, so the
code computes min with 100). -/
theorem threat_score_formula (e : DomainRecord) :
    calculate_threat_score e =
      min 100 ((if e.mx then 25 else 0)
        + (match e.brand_similarity with
            | some q => if 0 < q then Rat.floor (q * 35) else 0
            | none => 0)
        + min (5 * (e.keywords.length : ℤ)) 25
        + (if ∃ k ∈ e.keywords, k ∈ high_risk then 15 else 0)) :=
  cts_formula e

/-- Sample record of the CRITICAL example of the spec. -/
def crit_example : DomainRecord :=
  { domain := "x.com", mx := true, has_ip := true,
    keywords := ["login", "password", "bank", "crypto", "verify"],
    brand_match := some "paypal", brand_similarity := some 1,
    date := "t", threat_score := 0, threat_level := "" }

/-- Sample record of the HIGH example of the spec. -/
def high_example : DomainRecord :=
  { domain := "y.com", mx := true, has_ip := true, keywords := ["secure"],
    brand_match := none, brand_similarity := some (8 / 10),
    date := "t", threat_score := 0, threat_level := "" }

/-- C5: the threat score is always an integer in the interval from 0 to 100;
the CRITICAL example scores 100 and maps to CRITICAL, and the HIGH example
scores 73 (the keyword secure being high-risk) and maps to HIGH. -/
theorem threat_score_bounds :
    (∀ e : DomainRecord, 0 ≤ calculate_threat_score e ∧ calculate_threat_score e ≤ 100)
    ∧ calculate_threat_score crit_example = 100
    ∧ get_threat_level (calculate_threat_score crit_example) = "CRITICAL"
    ∧ calculate_threat_score high_example = 73
    ∧ get_threat_level (calculate_threat_score high_example) = "HIGH" := by
  refine ⟨?_, by with_unfolding_all decide, by with_unfolding_all decide,
    by with_unfolding_all decide, by with_unfolding_all decide⟩
  intro e
  rw [cts_formula e]
  constructor
  · refine le_min (by norm_num) ?_
    have hbrand : 0 ≤ (match e.brand_similarity with
        | some q => if 0 < q then Rat.floor (q * 35) else 0
        | none => 0 : ℤ) := by
      rcases e.brand_similarity with _ | q
      · simp
      · simp only []
        split
        · next hq => exact ratFloor_nonneg (by positivity)
        · exact le_refl 0
    have hkw : (0 : ℤ) ≤ min (5 * (e.keywords.length : ℤ)) 25 :=
      le_min (by positivity) (by norm_num)
    split_ifs <;> omega
  · exact min_le_left _ _

/-- C6: the threat score is monotone: appending a matched high-risk keyword
never decreases it, and replacing the brand similarity by a larger value
never decreases it. -/
theorem threat_score_monotone :
    (∀ (e : DomainRecord) (k : String), k ∈ high_risk →
      calculate_threat_score e
        ≤ calculate_threat_score { e with keywords := e.keywords ++ [k] })
    ∧ (∀ (e : DomainRecord) (q r : ℚ), q ≤ r →
      calculate_threat_score { e with brand_similarity := some q }
        ≤ calculate_threat_score { e with brand_similarity := some r }) := by
  constructor
  · intro e k hk
    rw [cts_formula, cts_formula]
    simp only [DomainRecord.mk.injEq]
    have hlen : (({ e with keywords := e.keywords ++ [k] } : DomainRecord).keywords.length : ℤ)
        = (e.keywords.length : ℤ) + 1 := by simp
    have hex : ∃ x ∈ ({ e with keywords := e.keywords ++ [k] } : DomainRecord).keywords,
        x ∈ high_risk := ⟨k, by simp, hk⟩
    have hbseq : ({ e with keywords := e.keywords ++ [k] } : DomainRecord).brand_similarity
        = e.brand_similarity := rfl
    have hmxeq : ({ e with keywords := e.keywords ++ [k] } : DomainRecord).mx = e.mx := rfl
    rw [hlen, hbseq, hmxeq, if_pos hex]
    by_cases hk2 : ∃ x ∈ e.keywords, x ∈ high_risk
    · rw [if_pos hk2]
      omega
    · rw [if_neg hk2]
      omega
  · intro e q r hqr
    rw [cts_formula, cts_formula]
    have h1 : ({ e with brand_similarity := some q } : DomainRecord).brand_similarity
        = some q := rfl
    have h2 : ({ e with brand_similarity := some r } : DomainRecord).brand_similarity
        = some r := rfl
    have h3 : ({ e with brand_similarity := some q } : DomainRecord).keywords
        = e.keywords := rfl
    have h4 : ({ e with brand_similarity := some r } : DomainRecord).keywords
        = e.keywords := rfl
    have h5 : ({ e with brand_similarity := some q } : DomainRecord).mx = e.mx := rfl
    have h6 : ({ e with brand_similarity := some r } : DomainRecord).mx = e.mx := rfl
    rw [h1, h2, h3, h4, h5, h6]
    have hB : (if 0 < q then Rat.floor (q * 35) else 0)
        ≤ (if 0 < r then Rat.floor (r * 35) else 0) := by
      by_cases hq : 0 < q
      · rw [if_pos hq, if_pos (lt_of_lt_of_le hq hqr)]
        exact ratFloor_mono (by nlinarith)
      · rw [if_neg hq]
        by_cases hr : 0 < r
        · rw [if_pos hr]
          exact ratFloor_nonneg (by positivity)
        · rw [if_neg hr]
    simp only []
    split_ifs at hB ⊢ <;> omega

/-- Witness for threat_score_monotone at concrete inputs. -/
theorem threat_score_monotone_witness :
    ("login" ∈ high_risk
      ∧ calculate_threat_score high_example
          ≤ calculate_threat_score { high_example with
              keywords := high_example.keywords ++ ["login"] })
    ∧ ((1 : ℚ) / 2 ≤ 1
      ∧ calculate_threat_score { high_example with brand_similarity := some (1 / 2) }
          ≤ calculate_threat_score { high_example with brand_similarity := some 1 }) :=
  ⟨⟨by decide, threat_score_monotone.1 high_example "login" (by decide)⟩,
   ⟨by norm_num, threat_score_monotone.2 high_example (1 / 2) 1 (by norm_num)⟩⟩

/-- Every entry of the BRANDS lexicon is a non-empty string. -/
lemma brands_ne_empty : ∀ b ∈ BRANDS, b ≠ "" := by decide

/-- A brand returned by the scorer belongs to the BRANDS lexicon. -/
lemma calculate_brand_similarity_mem {hasLev : Bool} {d b : String}
    (h : (calculate_brand_similarity hasLev d).1 = some b) : b ∈ BRANDS := by
  cases hasLev with
  | false => exact absurd h (by simp [calculate_brand_similarity, calcBrandSim])
  | true =>
    have hcalc : calculate_brand_similarity true d
        = brandLoop (get_domain_base d) BRANDS (none, 0) := rfl
    rw [hcalc] at h
    rcases brandLoop_mem (get_domain_base d) BRANDS (none, 0) b h with h1 | h1
    · exact h1
    · cases h1

/-- When the scorer returns no brand it returns the zero pair. -/
lemma calculate_brand_similarity_none {hasLev : Bool} {d : String}
    (h : (calculate_brand_similarity hasLev d).1 = none) :
    calculate_brand_similarity hasLev d = (none, 0) := by
  cases hasLev with
  | false => rfl
  | true =>
    have hcalc : calculate_brand_similarity true d
        = brandLoop (get_domain_base d) BRANDS (none, 0) := rfl
    rw [hcalc] at h ⊢
    exact brandLoop_none (get_domain_base d) BRANDS (none, 0) h

/-- The brand-alert condition of is_suspicious holds exactly when the scorer
returned a brand with similarity at or above the threshold. -/
lemma alert_iff (hasLev : Bool) (d : String) :
    (pyTruthy (calculate_brand_similarity hasLev d).1
      && decide (BRAND_SIMILARITY_THRESHOLD ≤ (calculate_brand_similarity hasLev d).2))
      = true
    ↔ ∃ b s, calculate_brand_similarity hasLev d = (some b, s)
        ∧ BRAND_SIMILARITY_THRESHOLD ≤ s := by
  constructor
  · intro h
    rw [Bool.and_eq_true] at h
    obtain ⟨h1, h2⟩ := h
    rcases hr1 : (calculate_brand_similarity hasLev d).1 with _ | b
    · rw [hr1] at h1
      exact absurd h1 (by simp [pyTruthy])
    · refine ⟨b, (calculate_brand_similarity hasLev d).2, ?_, of_decide_eq_true h2⟩
      rw [← Prod.mk.eta (p := calculate_brand_similarity hasLev d), hr1]
  · rintro ⟨b, s, heq, hthr⟩
    have h1 : (calculate_brand_similarity hasLev d).1 = some b := by rw [heq]
    have hbne : b ≠ "" := brands_ne_empty b (calculate_brand_similarity_mem h1)
    have h2 : (calculate_brand_similarity hasLev d).2 = s := by rw [heq]
    rw [Bool.and_eq_true]
    exact ⟨by rw [h1]; simp [pyTruthy, hbne], by rw [h2]; exact decide_eq_true hthr⟩

/-- C2: a domain is suspicious exactly when some lexicon keyword occurs in it
or the scorer returned a brand with similarity at or above 0.8; in the
flagged verdict the keyword list is the matched list, sub-threshold brand
proximity is discarded entirely (both brand fields are None), and an
at-threshold brand is reported with its similarity rounded to two decimal
places; the clean verdict carries no evidence fields. -/
theorem is_suspicious_characterization (hasLev : Bool) (d : String) :
    (is_suspicious hasLev d ≠ Verdict.clean ↔
      KEYWORDS.filter (fun k => strContains d k) ≠ []
        ∨ ∃ b s, calculate_brand_similarity hasLev d = (some b, s)
            ∧ BRAND_SIMILARITY_THRESHOLD ≤ s)
    ∧ (∀ kws bm bs, is_suspicious hasLev d = Verdict.flagged kws bm bs →
        kws = KEYWORDS.filter (fun k => strContains d k)
        ∧ ((calculate_brand_similarity hasLev d).2 < BRAND_SIMILARITY_THRESHOLD →
            bm = none ∧ bs = none)
        ∧ (∀ b s, calculate_brand_similarity hasLev d = (some b, s) →
            BRAND_SIMILARITY_THRESHOLD ≤ s →
            bm = some b ∧ bs = some (round2 s))) := by
  have hdef : is_suspicious hasLev d
      = if !(KEYWORDS.filter (fun k => strContains d k)).isEmpty
            || (pyTruthy (calculate_brand_similarity hasLev d).1
                && decide (BRAND_SIMILARITY_THRESHOLD
                    ≤ (calculate_brand_similarity hasLev d).2)) then
          Verdict.flagged (KEYWORDS.filter (fun k => strContains d k))
            (if pyTruthy (calculate_brand_similarity hasLev d).1
                && decide (BRAND_SIMILARITY_THRESHOLD
                    ≤ (calculate_brand_similarity hasLev d).2)
              then (calculate_brand_similarity hasLev d).1 else none)
            (if pyTruthy (calculate_brand_similarity hasLev d).1
                && decide (BRAND_SIMILARITY_THRESHOLD
                    ≤ (calculate_brand_similarity hasLev d).2)
              then some (round2 (calculate_brand_similarity hasLev d).2) else none)
        else Verdict.clean := rfl
  constructor
  · by_cases hcond : (!(KEYWORDS.filter (fun k => strContains d k)).isEmpty
        || (pyTruthy (calculate_brand_similarity hasLev d).1
            && decide (BRAND_SIMILARITY_THRESHOLD
                ≤ (calculate_brand_similarity hasLev d).2))) = true
    · rw [hdef, if_pos hcond]
      constructor
      · intro _
        rw [Bool.or_eq_true, Bool.not_eq_true'] at hcond
        rcases hcond with h1 | h1
        · exact Or.inl (by simpa [List.isEmpty_iff] using h1)
        · exact Or.inr ((alert_iff hasLev d).mp h1)
      · intro _
        simp
    · rw [hdef, if_neg hcond]
      rw [Bool.or_eq_true, not_or] at hcond
      obtain ⟨h1, h2⟩ := hcond
      rw [Bool.not_eq_true, Bool.not_eq_false'] at h1
      rw [Bool.not_eq_true] at h2
      constructor
      · intro h
        exact absurd rfl h
      · intro h
        rcases h with h | h
        · refine absurd ?_ h
          simpa [List.isEmpty_iff] using h1
        · have halert := (alert_iff hasLev d).mpr h
          rw [h2] at halert
          cases halert
  · intro kws bm bs heq
    rw [hdef] at heq
    by_cases hcond : (!(KEYWORDS.filter (fun k => strContains d k)).isEmpty
        || (pyTruthy (calculate_brand_similarity hasLev d).1
            && decide (BRAND_SIMILARITY_THRESHOLD
                ≤ (calculate_brand_similarity hasLev d).2))) = true
    · rw [if_pos hcond] at heq
      injection heq with e1 e2 e3
      refine ⟨e1.symm, ?_, ?_⟩
      · intro hlt
        have hA : (pyTruthy (calculate_brand_similarity hasLev d).1
            && decide (BRAND_SIMILARITY_THRESHOLD
                ≤ (calculate_brand_similarity hasLev d).2)) = false := by
          rw [Bool.and_eq_false_iff]
          exact Or.inr (by simpa using not_le.mpr hlt)
        rw [hA] at e2 e3
        exact ⟨e2.symm, e3.symm⟩
      · intro b s hbs hthr
        have hA : (pyTruthy (calculate_brand_similarity hasLev d).1
            && decide (BRAND_SIMILARITY_THRESHOLD
                ≤ (calculate_brand_similarity hasLev d).2)) = true :=
          (alert_iff hasLev d).mpr ⟨b, s, hbs, hthr⟩
        rw [hA] at e2 e3
        simp only [if_true] at e2 e3
        constructor
        · rw [← e2, hbs]
        · rw [← e3, hbs]
    · rw [if_neg hcond] at heq
      cases heq

/-- Witness for is_suspicious_characterization: a domain with keyword matches
is flagged. -/
theorem is_suspicious_characterization_witness :
    is_suspicious true "secure-paypal-login.com" ≠ Verdict.clean :=
  (is_suspicious_characterization true "secure-paypal-login.com").1.mpr
    (Or.inl (by with_unfolding_all decide))

/-- The candidate fold of main appends exactly the records selected by
processNew, in candidate order, and counts them. -/
lemma foldl_ingestStep (hasLev : Bool) (mxF aF : String → Bool)
    (dateF : String → String) (seen : List String) :
    ∀ (cands : List String) (ex : List DomainRecord) (k : Nat),
      cands.foldl (ingestStep hasLev mxF aF dateF seen) (ex, k)
        = (ex ++ cands.filterMap (processNew hasLev mxF aF dateF seen),
           k + (cands.filterMap (processNew hasLev mxF aF dateF seen)).length) := by
  intro cands
  induction cands with
  | nil => intro ex k; simp
  | cons d rest ih =>
    intro ex k
    rw [List.foldl_cons, List.filterMap_cons]
    cases h : processNew hasLev mxF aF dateF seen d with
    | none =>
      have hstep : ingestStep hasLev mxF aF dateF seen (ex, k) d = (ex, k) := by
        simp [ingestStep, h]
      rw [hstep, ih]
    | some e =>
      have hstep : ingestStep hasLev mxF aF dateF seen (ex, k) d = (ex ++ [e], k + 1) := by
        simp [ingestStep, h]
      rw [hstep, ih]
      rw [Prod.mk.injEq]
      exact ⟨by rw [List.append_assoc]; rfl, by simp; omega⟩

/-- Closed form of main_ingest in terms of newRecords. -/
lemma main_ingest_eq (hasLev : Bool) (mxF aF : String → Bool)
    (dateF : String → String) (existing : List DomainRecord) (cands : List String) :
    main_ingest hasLev mxF aF dateF existing cands
      = (takeLast 1000 (existing ++ newRecords hasLev mxF aF dateF existing cands),
         (newRecords hasLev mxF aF dateF existing cands).length) := by
  unfold main_ingest newRecords
  simp only [foldl_ingestStep, Nat.zero_add]

/-- A record produced by processNew carries the processed domain. -/
lemma processNew_domain {hasLev : Bool} {mxF aF : String → Bool}
    {dateF : String → String} {seen : List String} {d : String} {e : DomainRecord}
    (h : processNew hasLev mxF aF dateF seen d = some e) : e.domain = d := by
  unfold processNew at h
  split at h
  · cases h
  · split at h
    · cases h
    · injection h with h
      rw [← h]

/-- A record produced by processNew comes from a domain outside the snapshot. -/
lemma processNew_not_seen {hasLev : Bool} {mxF aF : String → Bool}
    {dateF : String → String} {seen : List String} {d : String} {e : DomainRecord}
    (h : processNew hasLev mxF aF dateF seen d = some e) : d ∉ seen := by
  unfold processNew at h
  split at h
  · cases h
  · next hns => exact hns

/-- The domains of the appended records are the kept candidates in order. -/
lemma newRecords_domains (hasLev : Bool) (mxF aF : String → Bool)
    (dateF : String → String) (existing : List DomainRecord) :
    ∀ cands : List String,
      (newRecords hasLev mxF aF dateF existing cands).map (fun e => e.domain)
        = cands.filter (fun d => (processNew hasLev mxF aF dateF
            (existing.map (fun e => e.domain)) d).isSome) := by
  intro cands
  induction cands with
  | nil => rfl
  | cons d rest ih =>
    unfold newRecords at ih ⊢
    rw [List.filterMap_cons, List.filter_cons]
    cases h : processNew hasLev mxF aF dateF (existing.map (fun e => e.domain)) d with
    | none => simpa [h] using ih
    | some e =>
      rw [List.map_cons, ih, processNew_domain h]
      simp [h]

set_option maxRecDepth 10000 in
/-- C9: after every ingestion batch the saved history is the suffix of the
full sequence (prior history then appended records) obtained by dropping
everything before the 1000 most recent entries, so it never exceeds 1000
records and the oldest entries are dropped first with nothing else dropped;
and the appended records carry exactly the kept candidates, in the order the
candidates were processed. -/
theorem ingestion_retention_and_order (hasLev : Bool) (mxF aF : String → Bool)
    (dateF : String → String) (existing : List DomainRecord) (cands : List String) :
    ((main_ingest hasLev mxF aF dateF existing cands).1).length ≤ 1000
    ∧ (main_ingest hasLev mxF aF dateF existing cands).1
        = (existing ++ newRecords hasLev mxF aF dateF existing cands).drop
            ((existing ++ newRecords hasLev mxF aF dateF existing cands).length - 1000)
    ∧ (newRecords hasLev mxF aF dateF existing cands).map (fun e => e.domain)
        = cands.filter (fun d => (processNew hasLev mxF aF dateF
            (existing.map (fun e => e.domain)) d).isSome) := by
  refine ⟨?_, ?_, newRecords_domains hasLev mxF aF dateF existing cands⟩
  · rw [main_ingest_eq]
    show (takeLast 1000 _).length ≤ 1000
    unfold takeLast
    rw [List.length_drop]
    omega
  · rw [main_ingest_eq]
    rfl

set_option maxRecDepth 10000 in
/-- C7 (amended): a candidate whose domain is already recorded is skipped
unconditionally, and provided the first run does not overflow the
1000-record retention cap, a second run of ingestion with the same candidate
list on the resulting history appends nothing and leaves the history
unchanged, whatever the DNS oracles and clock return on the second run. -/
theorem ingestion_idempotent_no_truncation (hasLev : Bool)
    (mxF aF mxF2 aF2 : String → Bool) (dateF dateF2 : String → String)
    (existing : List DomainRecord) (cands : List String)
    (hcap : existing.length
        + (newRecords hasLev mxF aF dateF existing cands).length ≤ 1000) :
    (∀ d, d ∈ existing.map (fun e => e.domain) →
        processNew hasLev mxF aF dateF (existing.map (fun e => e.domain)) d = none)
    ∧ main_ingest hasLev mxF2 aF2 dateF2
        ((main_ingest hasLev mxF aF dateF existing cands).1) cands
      = ((main_ingest hasLev mxF aF dateF existing cands).1, 0) := by
  have hlen : (existing ++ newRecords hasLev mxF aF dateF existing cands).length ≤ 1000 := by
    rw [List.length_append]
    exact hcap
  have hout : (main_ingest hasLev mxF aF dateF existing cands).1
      = existing ++ newRecords hasLev mxF aF dateF existing cands := by
    rw [main_ingest_eq]
    show takeLast 1000 _ = _
    unfold takeLast
    rw [Nat.sub_eq_zero_of_le hlen, List.drop_zero]
  constructor
  · intro d hd
    simp [processNew, hd]
  · have hnone : ∀ d ∈ cands,
        processNew hasLev mxF2 aF2 dateF2
          (((main_ingest hasLev mxF aF dateF existing cands).1).map (fun e => e.domain)) d
          = none := by
      intro d hd
      rw [hout, List.map_append]
      by_cases hmem : d ∈ existing.map (fun e => e.domain)
      · simp [processNew, List.mem_append.mpr (Or.inl hmem)]
      · cases hsus : is_suspicious hasLev d with
        | clean =>
          unfold processNew
          split
          · rfl
          · rw [hsus]
        | flagged kws bm bs =>
          have hsome : (processNew hasLev mxF aF dateF
              (existing.map (fun e => e.domain)) d).isSome = true := by
            unfold processNew
            rw [if_neg hmem, hsus]
            rfl
          have hd2 : d ∈ (newRecords hasLev mxF aF dateF existing cands).map
              (fun e => e.domain) := by
            rw [newRecords_domains]
            exact List.mem_filter.mpr ⟨hd, hsome⟩
          simp [processNew, List.mem_append.mpr (Or.inr hd2)]
    have hnr2 : newRecords hasLev mxF2 aF2 dateF2
        ((main_ingest hasLev mxF aF dateF existing cands).1) cands = [] := by
      unfold newRecords
      exact List.filterMap_eq_nil_iff.mpr hnone
    rw [main_ingest_eq, hnr2, List.append_nil]
    have hlen2 : ((main_ingest hasLev mxF aF dateF existing cands).1).length ≤ 1000 := by
      rw [hout]
      exact hlen
    unfold takeLast
    rw [Nat.sub_eq_zero_of_le hlen2, List.drop_zero]
    rfl

/-- Record constructor used by the idempotence counterexample. -/
def cexRec (d : String) : DomainRecord :=
  { domain := d, mx := false, has_ip := true, keywords := [], brand_match := none,
    brand_similarity := none, date := "t0", threat_score := 0, threat_level := "LOW" }

/-- History of exactly 1000 records whose first entry is a suspicious domain
that also appears in the candidate list. -/
def cexHistory : List DomainRecord :=
  cexRec "secure-paypal.com" :: List.replicate 999 (cexRec "z.z")

/-- Candidate list of the idempotence counterexample. -/
def cexCands : List String := ["paypal-x.com", "secure-paypal.com"]

set_option maxRecDepth 100000 in
/-- Counterexample to C7 as stated: on a full 1000-record history, the first
run appends one new record, pushing the record of secure-paypal.com out of
the retention window; re-running ingestion with the same candidate list on
the resulting history then appends one record again instead of none. -/
theorem ingestion_idempotent_counterexample :
    (main_ingest true (fun _ => false) (fun _ => true) (fun _ => "t1")
        cexHistory cexCands).2 = 1
    ∧ (main_ingest true (fun _ => false) (fun _ => true) (fun _ => "t2")
        ((main_ingest true (fun _ => false) (fun _ => true) (fun _ => "t1")
            cexHistory cexCands).1)
        cexCands).2 = 1 := by
  refine ⟨by with_unfolding_all decide, by with_unfolding_all decide⟩

set_option maxRecDepth 10000 in
/-- Witness for ingestion_idempotent_no_truncation at a concrete small run. -/
theorem ingestion_idempotent_no_truncation_witness :
    main_ingest true (fun _ => false) (fun _ => true) (fun _ => "t2")
        ((main_ingest true (fun _ => false) (fun _ => true) (fun _ => "t1")
            [] ["secure-paypal.com"]).1) ["secure-paypal.com"]
      = ((main_ingest true (fun _ => false) (fun _ => true) (fun _ => "t1")
            [] ["secure-paypal.com"]).1, 0) :=
  (ingestion_idempotent_no_truncation true (fun _ => false) (fun _ => true)
    (fun _ => false) (fun _ => true) (fun _ => "t1") (fun _ => "t2")
    [] ["secure-paypal.com"] (by with_unfolding_all decide)).2

set_option maxRecDepth 10000 in
/-- C8 (amended): when the candidate list has pairwise-distinct entries, as
get_recent_domains guarantees by collecting candidates into a set, and the
existing history has pairwise-distinct domains, the saved history after one
ingestion run still has pairwise-distinct domains: at most one record is
appended per domain. -/
theorem ingestion_unique_domains (hasLev : Bool) (mxF aF : String → Bool)
    (dateF : String → String) (existing : List DomainRecord) (cands : List String)
    (h1 : cands.Nodup) (h2 : (existing.map (fun e => e.domain)).Nodup) :
    (((main_ingest hasLev mxF aF dateF existing cands).1).map
        (fun e => e.domain)).Nodup := by
  have hsub : List.Sublist ((main_ingest hasLev mxF aF dateF existing cands).1)
      (existing ++ newRecords hasLev mxF aF dateF existing cands) := by
    rw [main_ingest_eq]
    show List.Sublist (takeLast 1000 _) _
    unfold takeLast
    exact List.drop_sublist _ _
  refine List.Nodup.sublist (hsub.map (fun e => e.domain)) ?_
  rw [List.map_append, List.nodup_append]
  refine ⟨h2, ?_, ?_⟩
  · rw [newRecords_domains]
    exact h1.filter _
  · intro x hx hx2
    rw [newRecords_domains] at hx2
    obtain ⟨_, hsome⟩ := List.mem_filter.mp hx2
    obtain ⟨e, he⟩ := Option.isSome_iff_exists.mp hsome
    exact absurd hx (processNew_not_seen he)

/-- Counterexample to C8 as stated: main does not de-duplicate the candidate
list itself; the dedup snapshot is taken before the loop and never updated,
so a duplicated new suspicious candidate is appended twice and the store
ends up with two records carrying the same domain. -/
theorem ingestion_unique_domains_counterexample :
    ((main_ingest true (fun _ => false) (fun _ => true) (fun _ => "t0") []
        ["secure-paypal.com", "secure-paypal.com"]).1.map (fun e => e.domain))
      = ["secure-paypal.com", "secure-paypal.com"] := by
  with_unfolding_all decide

/-- Witness for ingestion_unique_domains at a concrete run. -/
theorem ingestion_unique_domains_witness :
    (((main_ingest true (fun _ => false) (fun _ => true) (fun _ => "t0")
        [] ["secure-paypal.com", "q.com"]).1).map (fun e => e.domain)).Nodup :=
  ingestion_unique_domains true (fun _ => false) (fun _ => true) (fun _ => "t0")
    [] ["secure-paypal.com", "q.com"] (by decide) (by decide)

/-- A flagged verdict always carries positive evidence: a matched keyword or
a reported brand. -/
lemma is_suspicious_flagged_evidence {hasLev : Bool} {d : String}
    {kws : List String} {bm : Option String} {bs : Option ℚ}
    (h : is_suspicious hasLev d = Verdict.flagged kws bm bs) :
    kws ≠ [] ∨ bm ≠ none := by
  have hdef : is_suspicious hasLev d
      = if !(KEYWORDS.filter (fun k => strContains d k)).isEmpty
            || (pyTruthy (calculate_brand_similarity hasLev d).1
                && decide (BRAND_SIMILARITY_THRESHOLD
                    ≤ (calculate_brand_similarity hasLev d).2)) then
          Verdict.flagged (KEYWORDS.filter (fun k => strContains d k))
            (if pyTruthy (calculate_brand_similarity hasLev d).1
                && decide (BRAND_SIMILARITY_THRESHOLD
                    ≤ (calculate_brand_similarity hasLev d).2)
              then (calculate_brand_similarity hasLev d).1 else none)
            (if pyTruthy (calculate_brand_similarity hasLev d).1
                && decide (BRAND_SIMILARITY_THRESHOLD
                    ≤ (calculate_brand_similarity hasLev d).2)
              then some (round2 (calculate_brand_similarity hasLev d).2) else none)
        else Verdict.clean := rfl
  rw [hdef] at h
  by_cases hcond : (!(KEYWORDS.filter (fun k => strContains d k)).isEmpty
      || (pyTruthy (calculate_brand_similarity hasLev d).1
          && decide (BRAND_SIMILARITY_THRESHOLD
              ≤ (calculate_brand_similarity hasLev d).2))) = true
  · rw [if_pos hcond] at h
    injection h with e1 e2 e3
    by_cases hM : KEYWORDS.filter (fun k => strContains d k) = []
    · have halert : (pyTruthy (calculate_brand_similarity hasLev d).1
          && decide (BRAND_SIMILARITY_THRESHOLD
              ≤ (calculate_brand_similarity hasLev d).2)) = true := by
        rw [Bool.or_eq_true] at hcond
        rcases hcond with hc | hc
        · rw [hM] at hc
          cases hc
        · exact hc
      rcases hr1 : (calculate_brand_similarity hasLev d).1 with _ | b
      · rw [Bool.and_eq_true, hr1] at halert
        exact absurd halert.1 (by simp [pyTruthy])
      · refine Or.inr ?_
        rw [← e2, if_pos halert, hr1]
        simp
    · exact Or.inl (by rw [← e1]; exact hM)
  · rw [if_neg hcond] at h
    cases h

/-- C10: every record appended to the history by ingestion has a threat level
computed from its own threat score by get_threat_level, and carries positive
evidence: its keyword list is non-empty or its brand match is present — only
domains classified suspicious are persisted. -/
theorem ingested_record_invariants (hasLev : Bool) (mxF aF : String → Bool)
    (dateF : String → String) (existing : List DomainRecord) (cands : List String)
    (e : DomainRecord) (h : e ∈ newRecords hasLev mxF aF dateF existing cands) :
    e.threat_level = get_threat_level e.threat_score
    ∧ (e.keywords ≠ [] ∨ e.brand_match ≠ none) := by
  unfold newRecords at h
  obtain ⟨d, _, hpd⟩ := List.mem_filterMap.mp h
  unfold processNew at hpd
  split at hpd
  · cases hpd
  · cases hsus : is_suspicious hasLev d with
    | clean =>
      rw [hsus] at hpd
      cases hpd
    | flagged kws bm bs =>
      rw [hsus] at hpd
      injection hpd with hpd
      obtain hev := is_suspicious_flagged_evidence hsus
      constructor
      · rw [← hpd]
      · rw [← hpd]
        simpa using hev

/-- Concrete record appended by a small ingestion run, used as witness input. -/
def witRec : DomainRecord :=
  { domain := "secure-paypal.com", mx := false, has_ip := true,
    keywords := ["secure"], brand_match := some "paypal", brand_similarity := some 1,
    date := "t0", threat_score := 55, threat_level := "HIGH" }

set_option maxRecDepth 10000 in
/-- Witness for ingested_record_invariants at a concrete appended record. -/
theorem ingested_record_invariants_witness :
    witRec ∈ newRecords true (fun _ => false) (fun _ => true) (fun _ => "t0")
        [] ["secure-paypal.com"]
    ∧ (witRec.threat_level = get_threat_level witRec.threat_score
        ∧ (witRec.keywords ≠ [] ∨ witRec.brand_match ≠ none)) :=
  ⟨by with_unfolding_all decide,
   ingested_record_invariants true (fun _ => false) (fun _ => true) (fun _ => "t0")
     [] ["secure-paypal.com"] witRec (by with_unfolding_all decide)⟩
